import Mathlib

/-!
Shallow embedding of the NatMEG-BIDSifier conversion-table core
(`bidsify_conversion_table.py`, `bidsify_parsing.py`, `bidsify_pipeline.py`,
`bidsify_constants.py`) and proofs about the ledger state machine, the
scan-and-merge operation and the filename parser.

Modelling conventions:
* pandas DataFrames with the fixed `CONVERSION_COLUMNS` schema are modelled
  as `List Row` where `Row` is a record with one field per column; string
  columns are `String` (with `""` for an absent value), the `split` and
  `event_id` columns, which the code fills with `None` or a string, are
  `Option String`, and `status_history`, which the code stores as a JSON
  string, is modelled as the list of decoded entries (the JSON round trip
  `json.loads (json.dumps h) = h` is taken as given).
* the filesystem is an abstract value `FSModel`: `pathExists` models
  `os.path.exists`, `globBaseNonempty` the `glob(join(bids_path, base ++ ".*"))`
  probe, `participantHasBids` the `participant in glob('sub-*', root_dir=path_BIDS)`
  probe, `sig` models `_file_signature`, `eventIndex` the `_build_event_index`
  dictionary, and `jobs` the deterministic enumeration of raw files produced
  by the nested `glob` loops of `generate_new_conversion_table`.
* `datetime.now()` values are passed in as explicit string parameters.
* per-file resolution (`bids_path_from_rawname`, which calls into `mne_bids`)
  is modelled by the `resolved : Option Resolved` field of a job: `none`
  models the resolver failing (returning `None`, which makes the tuple
  unpacking raise and the worker result be dropped by the executor loop).
-/

/-- Timestamps recorded in a status-history entry; mirrors the
`{'from': ..., 'to': ..., 'timestamp': ...}` dictionaries appended by
`_update_status_with_history`. `from` is a Lean keyword, hence `fromS`/`toS`. -/
structure HistEntry where
  fromS : String
  toS : String
  timestamp : String
deriving Repr, DecidableEq

/-- One ledger row, with one field per entry of `CONVERSION_COLUMNS`. -/
structure Row where
  time_stamp : String
  status : String
  participant_from : String
  participant_to : String
  session_from : String
  session_to : String
  task : String
  split : Option String
  run : String
  datatype : String
  acquisition : String
  processing : String
  description : String
  raw_path : String
  raw_name : String
  bids_path : String
  bids_name : String
  event_id : Option String
  last_processed : Option String
  attempt_count : String
  status_history : List HistEntry
deriving Repr, DecidableEq

/-- Outcome of `bids_path_from_rawname` for one raw file: the fields of the
returned `BIDSPath` that `process_file_entry` reads, together with the
`split` entry of the accompanying `info_dict`. -/
structure Resolved where
  split : String
  task : String
  run : String
  datatype : String
  processing : String
  description : String
  subjOut : String
  sessionOut : String
  acqOut : String
  bidsDir : String
  bidsBase : String
deriving Repr, DecidableEq

/-- One unit of scanning work, as assembled by the nested `glob` loops of
`generate_new_conversion_table`: a `(participant, date_session, acquisition,
file)` tuple plus the (deterministic, filesystem-dependent) resolver
outcome for that file. -/
structure Job where
  participant : String
  dateSession : String
  acq : String
  file : String
  resolved : Option Resolved
deriving Repr, DecidableEq

/-- Abstract snapshot of the filesystem and of the deterministic probes the
scanner and reconciler make against it. -/
structure FSModel where
  pathExists : String → Bool
  globBaseNonempty : String → String → Bool
  participantHasBids : String → Bool
  sig : String → String × String
  eventIndex : String → Option String
  jobs : List Job
  splitFuel : Nat

/-- Path join with `/`, as `os.path.join` behaves on the relative component
names produced by `glob` (no absolute components, no trailing separators). -/
def joinPath (a b : String) : String := a ++ "/" ++ b

/-- Key of a ledger row, the `f"{row['raw_path']}/{row['raw_name']}"` string
used both for `processed_files` and for `existing_keys`. -/
def rowKey (r : Row) : String := joinPath r.raw_path r.raw_name

/-- Full path of a job's raw file,
`os.path.join(path_raw, participant, date_session, acquisition, file)`. -/
def jobFull (pathRaw : String) (j : Job) : String :=
  joinPath (joinPath (joinPath (joinPath pathRaw j.participant) j.dateSession) j.acq) j.file

/-- Directory part of `jobFull`, `dirname(full_file_name)`. -/
def jobDir (pathRaw : String) (j : Job) : String :=
  joinPath (joinPath (joinPath pathRaw j.participant) j.dateSession) j.acq

/-- Translation of `OPM_EXEPCIONS_PATTERNS` from `bidsify_constants.py`. -/
def OPM_EXEPCIONS_PATTERNS : List String :=
  ["HPIbefore", "HPIafter", "HPImiddle", "HPIpre", "HPIpost"]

/-- Translation of `_update_status_with_history`: set the status, and append
a `{from, to, timestamp}` entry exactly when the status actually changed.
The `json.loads`/`json.dumps` round trip of the stored history string is
modelled by operating on the decoded list directly. -/
def updateStatusWithHistory (r : Row) (newStatus : String) (now : String) : Row :=
  if r.status ≠ newStatus then
    { r with
      status := newStatus
      status_history := r.status_history ++ [⟨r.status, newStatus, now⟩] }
  else
    { r with status := newStatus }

/-- Translation of the integer parse in `_record_processing_success`:
`int(table.at[row_idx,'attempt_count'] or '0')` with `ValueError`/`TypeError`
mapped to 0.  Python's `int` accepts an optional sign and surrounding blanks;
the ledger only ever stores plain digit strings, which is what is modelled. -/
def parseAttemptCount (s : String) : Nat :=
  if s = "" then 0 else (s.toNat?).getD 0

/-- Translation of `_record_processing_success`. -/
def recordProcessingSuccess (r : Row) (now : String) : Row :=
  { r with
    last_processed := some now
    attempt_count := toString (parseAttemptCount r.attempt_count + 1) }

/-- Translation of `os.path.splitext` restricted to basenames: split at the
last dot, except that a dot-only leading run does not count as an extension
separator (`splitext(".hidden") = (".hidden", "")`). Returns the base part. -/
def splitextBase (s : String) : String :=
  let cs := s.data
  let lead := cs.takeWhile (· = '.')
  let rest := cs.drop lead.length
  if rest.contains '.' then
    let revRest := rest.reverse
    let ext := revRest.takeWhile (· ≠ '.')
    String.mk (lead ++ (rest.take (rest.length - (ext.length + 1))))
  else
    s

/-- Translation of `_bids_output_exists`. -/
def bidsOutputExists (fs : FSModel) (bids_path bids_name : String) : Bool :=
  if bids_path = "" || bids_name = "" then false
  else if fs.pathExists (joinPath bids_path bids_name) then true
  else
    let base := splitextBase bids_name
    if base ≠ "" then fs.globBaseNonempty bids_path base else false

/-- Translation of the per-row body of `_refresh_processed_status`
(`_initialize_tracking_fields` is the identity here because the record type
always carries the tracking fields). -/
def refreshRow (fs : FSModel) (now : String) (r : Row) : Row :=
  if r.raw_path ≠ "" && r.raw_name ≠ "" && !fs.pathExists (joinPath r.raw_path r.raw_name) then
    updateStatusWithHistory r "missing" now
  else if r.status = "skip" || r.status = "check" then r
  else if bidsOutputExists fs r.bids_path r.bids_name then
    updateStatusWithHistory r "processed" now
  else if r.status = "processed" then
    updateStatusWithHistory r "run" now
  else r

/-- Translation of `_refresh_processed_status`: the loop updates each row
independently, so it is a map over the table. -/
def refreshTable (fs : FSModel) (now : String) (t : List Row) : List Row :=
  t.map (refreshRow fs now)

/-- Translation of the `processed_files` set built in
`generate_new_conversion_table`: keys of the rows whose status is
`processed` or `skip` (kept as a list; only membership is ever used). -/
def processedKeys (t : List Row) : List String :=
  (t.filter (fun r => r.status = "processed" || r.status = "skip")).map rowKey

/-- Translation of `get_split_file_parts`'s trailing-suffix rewrite
`re.sub(r'-\d+\.fif$', '.fif', file_path_str)`: if the path ends in
`-<digits>.fif`, replace that suffix by `.fif`. -/
def stripSplitSuffix (s : String) : String :=
  let rev := s.data.reverse
  match rev with
  | 'f' :: 'i' :: 'f' :: '.' :: rest =>
    let ds := rest.takeWhile Char.isDigit
    if ds ≠ [] ∧ rest.drop ds.length ≠ [] ∧ (rest.drop ds.length).head? = some '-' then
      String.mk (((rest.drop (ds.length + 1)).reverse) ++ ".fif".data)
    else s
  | _ => s

/-- Translation of the `while True` loop of `get_split_file_parts` collecting
consecutive `<base>-<i>.fif` parts.  The source loop terminates because the
filesystem is finite; `fuel` bounds the iteration count and is adequate
whenever it exceeds the number of consecutive split parts on disk. -/
def collectSplitParts (pathExists : String → Bool) (baseNoExt : String) :
    Nat → Nat → List String
  | 0, _ => []
  | fuel + 1, i =>
    let splitFile := baseNoExt ++ "-" ++ toString i ++ ".fif"
    if pathExists splitFile then
      splitFile :: collectSplitParts pathExists baseNoExt fuel (i + 1)
    else []

/-- Helper for `removeDotFif`, fuelled by the length of the string. -/
def removeDotFifAux : List Char → Nat → List Char
  | _, 0 => []
  | [], _ => []
  | c :: cs, fuel + 1 =>
    if ('.' :: 'f' :: 'i' :: 'f' :: []).isPrefixOf (c :: cs) then
      removeDotFifAux ((c :: cs).drop 4) fuel
    else c :: removeDotFifAux cs fuel

/-- Translation of `str.replace('.fif', '')` as applied to `base_path`:
remove every occurrence of `.fif`. -/
def removeDotFif (s : String) : String :=
  String.mk (removeDotFifAux s.data s.data.length)

/-- Translation of `get_split_file_parts`.  The Python function returns the
plain path string when the file does not exist or when only one part is
found, and a list of part paths otherwise; `Sum` keeps the two shapes
apart (`isinstance(splits, list)` becomes matching on `Sum.inr`). -/
def get_split_file_parts (pathExists : String → Bool) (fuel : Nat) (p : String) :
    Sum String (List String) :=
  if !pathExists p then Sum.inl p
  else
    let basePath := stripSplitSuffix p
    let first := if pathExists basePath ∧ basePath ≠ p then basePath else p
    let baseNoExt := removeDotFif basePath
    let parts := first :: collectSplitParts pathExists baseNoExt fuel 1
    match parts with
    | [single] => Sum.inl single
    | more => Sum.inr more

/-- Translation of the candidate-row construction in `process_file_entry`
(everything after the `processed_files` short-circuit).  `changed` is kept as
a parameter because the source's final status coercion mentions it.  A `none`
resolver outcome models `bids_path_from_rawname` returning `None`: unpacking
it raises, the exception is caught in the `as_completed` loop, and the file
contributes no candidate.  (`if not bids_path: return None` never fires on a
successful unpack, a `BIDSPath` object being always truthy.) -/
def candidateRow (pathRaw : String) (tasks : List String) (fs : FSModel)
    (ts : String) (j : Job) (changed : Bool) : Option Row :=
  match j.resolved with
  | none => none
  | some res =>
    if res.split ≠ "" then none
    else
      let full := jobFull pathRaw j
      let split : Option String :=
        match get_split_file_parts fs.pathExists fs.splitFuel full with
        | Sum.inr splits => some (toString (splits.length - 1))
        | Sum.inl _ => none
      let event_file := if res.task ≠ "" then fs.eventIndex res.task else none
      let status0 := "run"
      let status1 := if !(tasks ++ ["Noise"]).contains res.task then "check" else status0
      let status := if changed && status1 = "processed" then "run" else status1
      some {
        time_stamp := ts
        status := status
        participant_from := j.participant
        participant_to := res.subjOut
        session_from := j.dateSession
        session_to := res.sessionOut
        task := res.task
        split := split
        run := res.run
        datatype := res.datatype
        acquisition := res.acqOut
        processing := res.processing
        description := res.description
        raw_path := jobDir pathRaw j
        raw_name := j.file
        bids_path := res.bidsDir
        bids_name := res.bidsBase
        event_id := event_file
        last_processed := none
        attempt_count := "0"
        status_history := [] }

/-- Translation of `process_file_entry`: the `processed_files` short-circuit
(drop the file when it is already recorded as processed/skip, its signature
is unchanged, and the participant already has a `sub-*` folder under the
BIDS root) followed by the candidate-row construction. -/
def processFileEntry (pathRaw : String) (tasks : List String) (fs : FSModel)
    (processedFiles : List String) (ts : String) (j : Job) (changed : Bool) :
    Option Row :=
  if processedFiles.contains (jobFull pathRaw j) && !changed
      && fs.participantHasBids j.participant then
    none
  else
    candidateRow pathRaw tasks fs ts j changed

/-- Sorting key of a candidate row: the tuple
`(participant_from, session_from, acquisition, task or '', raw_name)` used by
`results.sort`.  With `task : String`, `task or ''` is `task` itself.
Nested `Prod.Lex` gives the same lexicographic tuple order as Python. -/
def sortKey (r : Row) :
    Lex (String × Lex (String × Lex (String × Lex (String × String)))) :=
  toLex (r.participant_from,
    toLex (r.session_from, toLex (r.acquisition, toLex (r.task, r.raw_name))))

/-- Comparison relation used to model the deterministic `results.sort`. -/
def rowLe (a b : Row) : Prop := sortKey a ≤ sortKey b

instance : DecidableRel rowLe := fun a b =>
  inferInstanceAs (Decidable (sortKey a ≤ sortKey b))

instance : IsTotal Row rowLe := ⟨fun a b => le_total (sortKey a) (sortKey b)⟩

instance : IsTrans Row rowLe := ⟨fun _ _ _ h h' => le_trans h h'⟩

/-- Index entries rebuilt by a scan: one `(raw_path/raw_name, (mtime, size))`
pair per enumerated file, as written by `_write_index`. -/
def buildIndexEntries (pathRaw : String) (fs : FSModel) :
    List (String × (String × String)) :=
  fs.jobs.map (fun j => (jobFull pathRaw j, fs.sig (jobFull pathRaw j)))

/-- Translation of `_load_index` on freshly written entries: the dictionary
maps each key to the last entry written for it. -/
def loadIndexFun (entries : List (String × (String × String)))
    (k : String) : Option (String × String) :=
  entries.reverse.lookup k

/-- Translation of `generate_new_conversion_table` (the part that matters to
the ledger: job enumeration with change detection against the previous
signature index, parallel candidate construction, deterministic sort, and the
rebuilt index entries).  The `as_completed` collection order is erased by the
final sort: distinct files have distinct sort keys, so the sorted output is
deterministic, which is how the model represents it. -/
def generateNewConversionTable (configTasks : List String) (pathRaw : String)
    (fs : FSModel) (existingTable : List Row)
    (previousIndex : String → Option (String × String)) (forceScan : Bool)
    (ts : String) : List Row × List (String × (String × String)) :=
  let tasks := configTasks ++ OPM_EXEPCIONS_PATTERNS
  let processedFiles := if existingTable.isEmpty then [] else processedKeys existingTable
  let candidates := fs.jobs.filterMap (fun j =>
    let full := jobFull pathRaw j
    let changed := if forceScan then true
      else decide (previousIndex full ≠ some (fs.sig full))
    processFileEntry pathRaw tasks fs processedFiles ts j changed)
  (List.insertionSort rowLe candidates, buildIndexEntries pathRaw fs)

/-- Translation of the status coercion applied to appended rows in
`update_conversion_table`:
`diff.loc[diff['status'].isin(['processed','skip']), 'status'] = 'run'`. -/
def coerceNewStatus (r : Row) : Row :=
  if r.status = "processed" || r.status = "skip" then { r with status := "run" }
  else r

/-- Translation of the merge step of `update_conversion_table` (lines after
the rescan): diff the newly scanned candidates against the existing rows by
key, coerce appended statuses, and append; the second component is the
`run_conversion` flag. -/
def mergeStep (existing news : List Row) : List Row × Bool :=
  if news.isEmpty then (existing, false)
  else
    let existingKeys := existing.map rowKey
    let diff := news.filter (fun r => !existingKeys.contains (rowKey r))
    if diff.isEmpty then (existing, false)
    else (existing ++ diff.map coerceNewStatus, true)

/-- Translation of `update_conversion_table` on the normal load path (the
persisted ledger exists and parses, so `load_conversion_table` returns the
parsed table refreshed by `_refresh_processed_status`).  Returns the updated
table, the signature index as left on disk (rebuilt only when the scan
enumerated at least one file), and the `run_conversion` flag. -/
def updateConversionTable (pathRaw : String) (fs : FSModel)
    (ledgerOnDisk : List Row) (configTaskList : List String)
    (previousIndex : String → Option (String × String)) (forceScan : Bool)
    (ts now : String) :
    List Row × (String → Option (String × String)) × Bool :=
  let existing := refreshTable fs now ledgerOnDisk
  let gen := generateNewConversionTable configTaskList pathRaw fs existing
    previousIndex forceScan ts
  let newIndex := if gen.2.isEmpty then previousIndex else loadIndexFun gen.2
  let merged := mergeStep existing gen.1
  (merged.1, newIndex, merged.2)

/-- Outcome of a call to `load_conversion_table`: a returned
`(table, file)` pair, the implicit `None` a Python function returns when it
falls off the end, or the `FileNotFoundError` raised when no conversion file
is found after generation. -/
inductive LoadResult
  | ok (table : List Row) (file : String)
  | noneReturned
  | fileNotFoundError
deriving Repr, DecidableEq

/-- Outcome of reading one persisted conversion file: whether
`os.path.getsize(...) > 0`, and the result of `pd.read_csv` (`none` models a
raised `EmptyDataError`/`ValueError`). -/
structure LedgerFile where
  name : String
  sizePositive : Bool
  parsed : Option (List Row)
deriving Repr

/-- Inputs of `load_conversion_table` that are read from the environment:
whether the conversion file exists (and is a regular file), the
`Overwrite_conversion` flag, the on-disk file itself, and the most recent
`*.tsv` file found under the log path after regeneration (`none` when the
`conversion_files` glob comes back empty). -/
structure LoadEnv where
  conversionFile : LedgerFile
  fileExists : Bool
  overwrite : Bool
  latest : Option LedgerFile

/-- Translation of `load_conversion_table` (`bidsify_conversion_table.py`
lines 324-397).  The `conversion_file and ...` conjunct is always true
because an empty configured name is replaced by the default before the test.
Branch structure is kept exactly: the regeneration code sits in the `else`
of the `if os.path.exists(...) and not overwrite` test, so the
empty-file and parse-failure paths of the `try` print a message and then
fall off the end of the function, returning `None`. -/
def loadConversionTable (env : LoadEnv) (fs : FSModel) (now : String)
    (refreshStatus : Bool) : LoadResult :=
  if env.fileExists && !env.overwrite then
    if env.conversionFile.sizePositive then
      match env.conversionFile.parsed with
      | some t =>
        LoadResult.ok (if refreshStatus then refreshTable fs now t else t)
          env.conversionFile.name
      | none => LoadResult.noneReturned
    else LoadResult.noneReturned
  else
    match env.latest with
    | none => LoadResult.fileNotFoundError
    | some lf =>
      if lf.sizePositive then
        match lf.parsed with
        | some t =>
          LoadResult.ok (if refreshStatus then refreshTable fs now t else t) lf.name
        | none => LoadResult.ok [] lf.name
      else LoadResult.ok [] lf.name

/-- Translation of the success path of the conversion executor
(`bidsify_pipeline.py`, `bidsify`): `df.at[i,'status'] = 'processed'`
followed by `_record_processing_success(df, i)`.  Note the direct status
assignment: `_update_status_with_history` is not called here. -/
def executorMarkProcessed (r : Row) (now : String) : Row :=
  recordProcessingSuccess { r with status := "processed" } now

/-- Translation of the failure path of the conversion executor
(`bidsify_pipeline.py`, `bidsify`): `df.at[i,'status'] = 'error'`, again a
direct assignment without a history append. -/
def executorMarkError (r : Row) : Row :=
  { r with status := "error" }

/-- Sample filesystem snapshot with no files on disk and no scan jobs. -/
def fsEmpty : FSModel where
  pathExists := fun _ => false
  globBaseNonempty := fun _ _ => false
  participantHasBids := fun _ => false
  sig := fun _ => ("", "")
  eventIndex := fun _ => none
  jobs := []
  splitFuel := 0

/-- Sample ledger row used by concrete witnesses. -/
def sampleRow : Row where
  time_stamp := "20250101"
  status := "run"
  participant_from := "sub-001"
  participant_to := "001"
  session_from := "220101"
  session_to := "01"
  task := "Phalanges"
  split := none
  run := ""
  datatype := "meg"
  acquisition := "triux"
  processing := ""
  description := ""
  raw_path := "/raw/sub-001/220101/triux"
  raw_name := "NatMEG_001_Phalanges_raw.fif"
  bids_path := "/bids/sub-001/ses-01/meg"
  bids_name := "sub-001_ses-01_task-Phalanges_meg.fif"
  event_id := none
  last_processed := none
  attempt_count := "0"
  status_history := []

/-- Load environment with an existing zero-byte conversion file and
overwrite disabled. -/
def zeroByteEnv : LoadEnv where
  conversionFile := { name := "logs/bids_conversion.tsv", sizePositive := false, parsed := none }
  fileExists := true
  overwrite := false
  latest := none

/-- Load environment with an existing conversion file whose parse raises
(`pd.errors.EmptyDataError`/`ValueError`), overwrite disabled. -/
def corruptEnv : LoadEnv where
  conversionFile := { name := "logs/bids_conversion.tsv", sizePositive := true, parsed := none }
  fileExists := true
  overwrite := false
  latest := none

/-- Element of a compiled regex alternative.  The patterns appearing in
`bidsify_parsing.py` are alternations of simple sequences: literal
characters, the `.` wildcard, `\d+` and `\d{n}`; nothing else occurs, so
this small grammar covers the source exactly. -/
inductive RElem
  | lit (c : Char)
  | anyc
  | digitPlus
  | digitRep (n : Nat)
deriving Repr, DecidableEq

/-- Matcher for one alternative: returns the unconsumed remainder on
success.  Greedy matching of `\d+`/`\d{n}` is exact here because in every
source pattern the element following a digit run can never match a digit. -/
def matchElems (ic : Bool) : List RElem → List Char → Option (List Char)
  | [], s => some s
  | RElem.lit p :: es, c :: s =>
    if (if ic then p.toLower == c.toLower else p == c) then matchElems ic es s else none
  | RElem.lit _ :: _, [] => none
  | RElem.anyc :: es, _ :: s => matchElems ic es s
  | RElem.anyc :: _, [] => none
  | RElem.digitPlus :: es, s =>
    let ds := s.takeWhile Char.isDigit
    if ds.isEmpty then none else matchElems ic es (s.drop ds.length)
  | RElem.digitRep n :: es, s =>
    if n ≤ s.length && (s.take n).all Char.isDigit then matchElems ic es (s.drop n)
    else none

/-- Compiler from a pattern-component string to a list of elements, fuelled
by the component length.  Handles exactly the constructs present in the
source patterns: `\d+`, `\d{n}`, escaped literals (`\+`, `\-`, `\.`), the
`.` wildcard, and literal characters. -/
def compileAux : Nat → List Char → List RElem
  | 0, _ => []
  | _ + 1, [] => []
  | fuel + 1, '\\' :: 'd' :: '+' :: rest => RElem.digitPlus :: compileAux fuel rest
  | fuel + 1, '\\' :: 'd' :: '{' :: rest =>
    let ds := rest.takeWhile Char.isDigit
    let n := (String.mk ds).toNat?.getD 0
    RElem.digitRep n :: compileAux fuel ((rest.drop ds.length).drop 1)
  | fuel + 1, '\\' :: c :: rest => RElem.lit c :: compileAux fuel rest
  | fuel + 1, '.' :: rest => RElem.anyc :: compileAux fuel rest
  | fuel + 1, c :: rest => RElem.lit c :: compileAux fuel rest

/-- Compile one alternation component. -/
def compileAlt (s : String) : List RElem := compileAux s.data.length s.data

/-- Try the alternatives in order at the current position (Python
alternation is first-match, not longest-match); returns the matched
length. -/
def tryAlts (ic : Bool) (alts : List (List RElem)) (s : List Char) : Option Nat :=
  match alts with
  | [] => none
  | a :: rest =>
    match matchElems ic a s with
    | some r => some (s.length - r.length)
    | none => tryAlts ic rest s

/-- Truthiness of `re.search` over an alternation: is there a match at some
position? -/
def searchB (ic : Bool) (alts : List (List RElem)) : List Char → Bool
  | [] => (tryAlts ic alts []).isSome
  | c :: rest =>
    if (tryAlts ic alts (c :: rest)).isSome then true else searchB ic alts rest

/-- Leftmost match of an alternation, returning the matched substring. -/
def findFirstMatch (ic : Bool) (alts : List (List RElem)) :
    List Char → Option (List Char)
  | [] => match tryAlts ic alts [] with
    | some _ => some []
    | none => none
  | c :: rest =>
    match tryAlts ic alts (c :: rest) with
    | some n => some ((c :: rest).take n)
    | none => findFirstMatch ic alts rest

/-- Scanner behind `re.findall`: leftmost non-overlapping matches, fuelled
by the subject length (each step consumes at least one character). -/
def findallAux (ic : Bool) (alts : List (List RElem)) : List Char → Nat → List (List Char)
  | _, 0 => []
  | [], _ => []
  | c :: rest, fuel + 1 =>
    match tryAlts ic alts (c :: rest) with
    | some n =>
      if n = 0 then findallAux ic alts rest fuel
      else ((c :: rest).take n) :: findallAux ic alts ((c :: rest).drop n) fuel
    | none => findallAux ic alts rest fuel

/-- Translation of `re.findall(pattern, s)` for an alternation of the
component patterns `pats`. -/
def findall (ic : Bool) (pats : List String) (s : List Char) : List String :=
  (findallAux ic (pats.map compileAlt) s s.length).map String.mk

/-- Scanner behind `re.sub(pattern, '', s)`: a zero-width match (an empty
alternation component, as produced by empty `split`/`desc` entries in the
exclusion list) keeps the current character and advances one position,
exactly as Python substitutes an empty match and then moves on. -/
def subAux (ic : Bool) (alts : List (List RElem)) : List Char → Nat → List Char
  | s, 0 => s
  | [], _ => []
  | c :: rest, fuel + 1 =>
    match tryAlts ic alts (c :: rest) with
    | some n =>
      if n = 0 then c :: subAux ic alts rest fuel
      else subAux ic alts ((c :: rest).drop n) fuel
    | none => c :: subAux ic alts rest fuel

/-- Translation of `re.sub('|'.join(pats), '', s, ...)`. -/
def subEmpty (ic : Bool) (pats : List String) (s : List Char) : List Char :=
  subAux ic (pats.map compileAlt) s s.length

/-- Translation of `file_contains` from `bidsify_utils.py`:
`bool(re.compile('|'.join(pattern)).search(file))` (case sensitive). -/
def file_contains (file : String) (pattern : List String) : Bool :=
  searchB false (pattern.map compileAlt) file.data

/-- Leftmost occurrence of `(NatMEG_|sub-)(\d+)`: scan positions, try the
two prefixes in order, and require at least one following digit; returns
the digit run (group 2). -/
def searchParticipantAux : List Char → Option (List Char)
  | [] => none
  | c :: rest =>
    let here :=
      match matchElems false (compileAlt "NatMEG_") (c :: rest) with
      | some r =>
        let ds := r.takeWhile Char.isDigit
        if ds.isEmpty then none else some ds
      | none => none
    let here2 :=
      match here with
      | some ds => some ds
      | none =>
        match matchElems false (compileAlt "sub-") (c :: rest) with
        | some r =>
          let ds := r.takeWhile Char.isDigit
          if ds.isEmpty then none else some ds
        | none => none
    match here2 with
    | some ds => some ds
    | none => searchParticipantAux rest

/-- Basename of a path: the part after the last `/`. -/
def pyBasename (s : String) : String :=
  String.mk ((s.data.reverse.takeWhile (· ≠ '/')).reverse)

/-- Translation of `str.zfill` for the digit strings it is applied to. -/
def pyZfill (s : String) (n : Nat) : String :=
  String.mk (List.replicate (n - s.length) '0' ++ s.data)

/-- Translation of `str.lstrip('0')`. -/
def lstripZeros (s : String) : String :=
  String.mk (s.data.dropWhile (· = '0'))

/-- Translation of `str.strip(chars)`: remove characters of the set from
both ends. -/
def pyStrip (cs : List Char) (s : String) : String :=
  String.mk (((s.data.dropWhile (cs.contains ·)).reverse.dropWhile (cs.contains ·)).reverse)

/-- Word-state walker behind `pyTitle`. -/
def pyTitleAux : Bool → List Char → List Char
  | _, [] => []
  | prevAlpha, c :: rest =>
    (if c.isAlpha then (if prevAlpha then c.toLower else c.toUpper) else c)
      :: pyTitleAux c.isAlpha rest

/-- Translation of `str.title()` for the ASCII fragments it is applied to:
uppercase the first letter of each alphabetic run, lowercase the rest. -/
def pyTitle (s : String) : String := String.mk (pyTitleAux false s.data)

/-- Translation of `str.lower()`. -/
def pyLower (s : String) : String := String.mk (s.data.map Char.toLower)

/-- Substring test behind Python's `needle in haystack`. -/
def containsSubAux (needle : List Char) : List Char → Bool
  | [] => needle.isEmpty
  | c :: rest => needle.isPrefixOf (c :: rest) || containsSubAux needle rest

/-- Translation of `needle in haystack` on strings. -/
def containsSub (hay needle : String) : Bool := containsSubAux needle.data hay.data

/-- Order-preserving deduplication used to model `list(set(...))` on the
datatype tokens.  CPython's set iteration order is unspecified; the model
fixes first-occurrence order, and every property proved about the result is
order-insensitive (membership, or a singleton list). -/
def dedupFirstAux (seen : List String) : List String → List String
  | [] => []
  | x :: rest =>
    if seen.contains x then dedupFirstAux seen rest
    else x :: dedupFirstAux (x :: seen) rest

/-- First-occurrence deduplication. -/
def dedupFirst (l : List String) : List String := dedupFirstAux [] l

/-- Translation of `PROC_PATTERNS` from `bidsify_constants.py`. -/
def PROC_PATTERNS : List String := ["tsss", "sss", "corr\\d+", "ds\\d+", "mc", "avgHead"]

/-- Translation of `NOISE_PATTERNS` from `bidsify_constants.py`. -/
def NOISE_PATTERNS : List String := ["empty", "noise", "Empty"]

/-- Translation of `HEADPOS_PATTERNS` from `bidsify_constants.py`. -/
def HEADPOS_PATTERNS : List String := ["headpos", "headshape"]

/-- Splitter behind `task.split('_')`, collecting fragments between
underscores. -/
def splitUnderscoreAux (acc : List Char) : List Char → List (List Char)
  | [] => [acc.reverse]
  | c :: rest =>
    if c = '_' then acc.reverse :: splitUnderscoreAux [] rest
    else splitUnderscoreAux (c :: acc) rest

/-- Translation of `[t for t in task.split('_') if t]`. -/
def taskParts (s : String) : List String :=
  ((splitUnderscoreAux [] s.data).map String.mk).filter (fun t => t ≠ "")

/-- Translation of `re.search(r'\.(.*)', basename).group(1)`:
everything after the first dot, or `none` (an `AttributeError` in the
source) when there is no dot. -/
def extAfterFirstDot (s : List Char) : Option (List Char) :=
  match s.dropWhile (· ≠ '.') with
  | [] => none
  | _ :: rest => some rest

/-- Structured metadata extracted from a raw filename, the `info_dict` of
`extract_info_from_filename`. -/
structure InfoDict where
  filename : String
  participant : String
  task : String
  split : String
  processing : List String
  description : String
  datatypes : List String
  suffix : String
  extension : String
deriving Repr, DecidableEq

/-- Translation of `extract_info_from_filename` (`bidsify_parsing.py`).
Returns `none` where the source raises (`AttributeError` from a failed
participant or extension search, `IndexError` from an empty task list);
callers treat those as a dropped candidate.  Variable names and mutation
order follow the source; the exclusion pattern is kept as the list of
alternation components that `'|'.join` produces (empty components included,
matching empty at every position, exactly as the joined Python pattern
does). -/
def extract_info_from_filename (file_name : String) : Option InfoDict :=
  let bn := pyBasename file_name
  match searchParticipantAux file_name.data with
  | none => none
  | some pdigits =>
    let participant0 := pyZfill (String.mk pdigits) 4
    let participant :=
      if (lstripZeros participant0).length < 3 then pyZfill (lstripZeros participant0) 3
      else participant0
    match extAfterFirstDot bn.data with
    | none => none
    | some extRest =>
      let extension := "." ++ String.mk extRest
      let dtFound := (findall true ["meg", "raw", "opm", "eeg", "behav"] bn.data).map pyLower
      let dts0 := dedupFirst (dtFound ++ [if containsSub file_name "kaptah" then "opm" else ""])
      let suffix0 := if dts0.contains "raw" || dts0.contains "meg" then "meg" else ""
      let datatypes0 := dts0.filter (fun d => d ≠ "")
      let proc0 := findall false PROC_PATTERNS bn.data
      let desc := if file_contains bn ["trans"] then "trans" else ""
      let suffix1 := if file_contains bn ["trans"] then "meg" else suffix0
      let suffix := if file_contains file_name HEADPOS_PATTERNS then "headshape" else suffix1
      let split :=
        match findFirstMatch false [compileAlt "\\-\\d+\\.fif"] bn.data with
        | some m => pyStrip ['.', 'f', 'i', 'f'] (String.mk m)
        | none => ""
      let exclude1 := ["NatMEG_"] ++ ["sub-"] ++ ["proc"] ++ datatypes0 ++ [participant]
        ++ [extension] ++ [suffix] ++ HEADPOS_PATTERNS ++ proc0 ++ [split]
        ++ ["\\+"] ++ ["\\-"] ++ [desc]
      let datatypes :=
        if file_contains file_name OPM_EXEPCIONS_PATTERNS then datatypes0 ++ ["opm"]
        else datatypes0
      let taskProc :=
        if datatypes.contains "opm" || containsSub file_name "kaptah" then
          let e0 := ["NatMEG_"] ++ ["sub-"] ++ ["proc-"] ++ datatypes ++ [participant]
            ++ [extension] ++ proc0 ++ [split] ++ ["\\+"] ++ ["\\-"] ++ ["file"]
            ++ [desc] ++ ["\\d{8}_", "\\d{6}_"]
          let e1 :=
            if !file_contains file_name OPM_EXEPCIONS_PATTERNS then e0 ++ ["hpi", "ds"]
            else e0
          (String.mk (subEmpty true e1 bn.data),
            findall false (PROC_PATTERNS ++ ["hpi", "ds"]) bn.data)
        else
          (String.mk (subEmpty true exclude1 bn.data), proc0)
      let canon := fun (t : String) =>
        if file_contains t NOISE_PATTERNS then
          match findFirstMatch false [compileAlt "before", compileAlt "after"]
              (pyLower t).data with
          | some m => "Noise" ++ pyTitle (String.mk m)
          | none => "Noise"
        else t
      let mk := fun (t : String) =>
        some { filename := file_name
               participant := participant
               task := canon t
               split := split
               processing := taskProc.2
               description := desc
               datatypes := datatypes
               suffix := suffix
               extension := extension : InfoDict }
      match taskParts taskProc.1 with
      | [] => none
      | [t] => mk t
      | t :: ts => mk (String.join ((t :: ts).map pyTitle))

/-- Resolver outcome of a noise recording whose task the parser
canonicalizes to `NoiseBefore`. -/
def noiseRes : Resolved where
  split := ""
  task := "NoiseBefore"
  run := ""
  datatype := "meg"
  processing := ""
  description := ""
  subjOut := "001"
  sessionOut := "01"
  acqOut := "triux"
  bidsDir := "/bids/sub-001/ses-01/meg"
  bidsBase := "sub-001_ses-01_task-NoiseBefore_meg.fif"

/-- Scan job for the noise recording. -/
def noiseJob : Job where
  participant := "sub-001"
  dateSession := "220101"
  acq := "triux"
  file := "NatMEG_001_empty_room_before_raw.fif"
  resolved := some noiseRes

/-- Candidate row the scanner produces for `noiseJob` when the configured
allow-list is empty. -/
def noiseCandidate : Row where
  time_stamp := "20250101"
  status := "check"
  participant_from := "sub-001"
  participant_to := "001"
  session_from := "220101"
  session_to := "01"
  task := "NoiseBefore"
  split := none
  run := ""
  datatype := "meg"
  acquisition := "triux"
  processing := ""
  description := ""
  raw_path := "/raw/sub-001/220101/triux"
  raw_name := "NatMEG_001_empty_room_before_raw.fif"
  bids_path := "/bids/sub-001/ses-01/meg"
  bids_name := "sub-001_ses-01_task-NoiseBefore_meg.fif"
  event_id := none
  last_processed := none
  attempt_count := "0"
  status_history := []

/-- Resolver outcome of a changed file whose task is outside every
allow-list. -/
def unknownRes : Resolved where
  split := ""
  task := "Unknown"
  run := ""
  datatype := "meg"
  processing := ""
  description := ""
  subjOut := "001"
  sessionOut := "01"
  acqOut := "triux"
  bidsDir := "/bids/sub-001/ses-01/meg"
  bidsBase := "sub-001_ses-01_task-Unknown_meg.fif"

/-- Scan job for the changed, previously processed file. -/
def unknownJob : Job where
  participant := "sub-001"
  dateSession := "220101"
  acq := "triux"
  file := "NatMEG_001_Unknown_raw.fif"
  resolved := some unknownRes

/-- Existing ledger recording `unknownJob`'s file as `processed`. -/
def unknownExisting : List Row :=
  [{ sampleRow with
      status := "processed"
      task := "Unknown"
      raw_path := "/raw/sub-001/220101/triux"
      raw_name := "NatMEG_001_Unknown_raw.fif" }]

/-- Filesystem snapshot holding a raw file and one `-1.fif` split part. -/
def splitFs : FSModel where
  pathExists := fun p =>
    p = "/raw/sub-001/220101/triux/NatMEG_001_Task_raw.fif"
    || p = "/raw/sub-001/220101/triux/NatMEG_001_Task_raw-1.fif"
  globBaseNonempty := fun _ _ => false
  participantHasBids := fun _ => false
  sig := fun _ => ("", "")
  eventIndex := fun _ => none
  jobs := []
  splitFuel := 4

/-- Resolver outcome of the split base file (empty split field). -/
def splitRes : Resolved where
  split := ""
  task := "Task"
  run := ""
  datatype := "meg"
  processing := ""
  description := ""
  subjOut := "001"
  sessionOut := "01"
  acqOut := "triux"
  bidsDir := "/bids/sub-001/ses-01/meg"
  bidsBase := "sub-001_ses-01_task-Task_meg.fif"

/-- Resolver outcome of the `-1.fif` split part (non-empty split field, as
`extract_info_from_filename` produces for a `-N.fif` basename). -/
def splitPartRes : Resolved :=
  { splitRes with split := "-1" }

/-- Scan job for the split base file. -/
def splitJob : Job where
  participant := "sub-001"
  dateSession := "220101"
  acq := "triux"
  file := "NatMEG_001_Task_raw.fif"
  resolved := some splitRes

/-- Scan job for the `-1.fif` split part. -/
def splitPartJob : Job :=
  { splitJob with file := "NatMEG_001_Task_raw-1.fif", resolved := some splitPartRes }

/-- Candidate row produced for the split base file: its `split` column
records the number of extra parts found on disk. -/
def splitCandidate : Row where
  time_stamp := "20250101"
  status := "check"
  participant_from := "sub-001"
  participant_to := "001"
  session_from := "220101"
  session_to := "01"
  task := "Task"
  split := some "1"
  run := ""
  datatype := "meg"
  acquisition := "triux"
  processing := ""
  description := ""
  raw_path := "/raw/sub-001/220101/triux"
  raw_name := "NatMEG_001_Task_raw.fif"
  bids_path := "/bids/sub-001/ses-01/meg"
  bids_name := "sub-001_ses-01_task-Task_meg.fif"
  event_id := none
  last_processed := none
  attempt_count := "0"
  status_history := []

/-- Blank the timestamp of a history entry (for comparison of ledgers up to
timestamp fields). -/
def stripHistEntry (e : HistEntry) : HistEntry :=
  { e with timestamp := "" }

/-- Blank every timestamp field of a row: the `time_stamp` column and the
timestamps inside `status_history`.  Two rows are "identical except
timestamp fields" exactly when their stripped forms are equal.
(`last_processed` is also timestamp-valued but is deliberately not blanked:
the idempotence theorem below proves the stronger statement that it, too,
is unchanged.) -/
def stripRow (r : Row) : Row :=
  { r with
    time_stamp := ""
    status_history := r.status_history.map stripHistEntry }

/-- Rescanned candidate sharing `sampleRow`'s key, with a stale `processed`
status. -/
def dupRow : Row := { sampleRow with status := "processed" }

/-- Fresh candidate with a new key and a stale `processed` status. -/
def newRow : Row :=
  { sampleRow with
      raw_name := "NatMEG_001_RestEyesOpen_raw.fif"
      status := "processed" }

/-- Coercing an appended row's status does not change its key. -/
theorem rowKey_coerceNewStatus (r : Row) : rowKey (coerceNewStatus r) = rowKey r := by
  unfold coerceNewStatus rowKey joinPath
  split <;> rfl

/-- Status of a coerced row, by cases on the source condition. -/
theorem coerceNewStatus_status (r : Row) :
    (coerceNewStatus r).status =
      (if r.status = "processed" || r.status = "skip" then "run" else r.status) := by
  unfold coerceNewStatus
  split <;> simp_all

/-- C2: for every ledger row whose raw source file (raw_path joined with
raw_name) does not exist on disk at reconciliation time, the reconciliation
pass sets that row's status to `missing`, regardless of its prior status
(including `skip` and `check`): the raw-existence check comes before the
skip/check short-circuit. -/
theorem c2_refresh_missing_overrides_any_status (fs : FSModel) (now : String)
    (r : Row) (h1 : r.raw_path ≠ "") (h2 : r.raw_name ≠ "")
    (h3 : fs.pathExists (joinPath r.raw_path r.raw_name) = false) :
    (refreshRow fs now r).status = "missing" := by
  unfold refreshRow
  have hcond : (r.raw_path ≠ "" && r.raw_name ≠ ""
      && !fs.pathExists (joinPath r.raw_path r.raw_name)) = true := by
    simp [h1, h2, h3]
  rw [if_pos hcond]
  unfold updateStatusWithHistory
  split <;> rfl

/-- Witness for C2: a row recorded as `skip` whose raw file is absent is set
to `missing` by the reconciliation pass. -/
theorem c2_witness :
    (refreshRow fsEmpty "2025-01-02T00:00:00"
      { sampleRow with status := "skip" }).status = "missing" :=
  c2_refresh_missing_overrides_any_status fsEmpty "2025-01-02T00:00:00"
    { sampleRow with status := "skip" } (by decide) (by decide) rfl

/-- C3: the merge step never alters existing rows (they form an unchanged
prefix of the merged table) and never appends a row whose key already occurs
among the existing rows; in particular a candidate sharing its
`(raw_path, raw_name)` key with an existing row is not appended and the
existing row (status included) is untouched. -/
theorem c3_merge_preserves_existing_and_keys (existing news : List Row) :
    (mergeStep existing news).1.take existing.length = existing ∧
    ∀ r ∈ (mergeStep existing news).1.drop existing.length,
      rowKey r ∉ existing.map rowKey := by
  unfold mergeStep
  by_cases hn : news.isEmpty = true
  · rw [if_pos hn]
    exact ⟨List.take_length existing, by simp⟩
  · rw [if_neg hn]
    by_cases hd :
        (news.filter (fun r => !(existing.map rowKey).contains (rowKey r))).isEmpty = true
    · rw [if_pos hd]
      exact ⟨List.take_length existing, by simp⟩
    · rw [if_neg hd]
      refine ⟨List.take_left existing _, ?_⟩
      intro r hr
      rw [List.drop_left] at hr
      obtain ⟨c, hc, hcr⟩ := List.mem_map.mp hr
      have hcf : (!(existing.map rowKey).contains (rowKey c)) = true :=
        (List.mem_filter.mp hc).2
      intro hmem
      rw [← hcr, rowKey_coerceNewStatus] at hmem
      have hmem' : (existing.map rowKey).contains (rowKey c) = true := by
        simpa using hmem
      rw [hmem'] at hcf
      simp at hcf

/-- C4: every row the merge step appends is a scanned candidate whose status
has been coerced: a candidate computing `processed` or `skip` is inserted
with status `run`, and no appended row carries status `processed` or
`skip`. -/
theorem c4_merge_coerces_appended_statuses (existing news : List Row) :
    ∀ r ∈ (mergeStep existing news).1.drop existing.length,
      r.status ≠ "processed" ∧ r.status ≠ "skip" ∧
      ∃ c ∈ news, r = coerceNewStatus c ∧
        ((c.status = "processed" ∨ c.status = "skip") → r.status = "run") := by
  unfold mergeStep
  by_cases hn : news.isEmpty = true
  · rw [if_pos hn]
    simp
  · rw [if_neg hn]
    by_cases hd :
        (news.filter (fun r => !(existing.map rowKey).contains (rowKey r))).isEmpty = true
    · rw [if_pos hd]
      simp
    · rw [if_neg hd]
      intro r hr
      rw [List.drop_left] at hr
      obtain ⟨c, hc, hcr⟩ := List.mem_map.mp hr
      have hcn : c ∈ news := (List.mem_filter.mp hc).1
      subst hcr
      by_cases hst : c.status = "processed" ∨ c.status = "skip"
      · have hrun : (coerceNewStatus c).status = "run" := by
          unfold coerceNewStatus
          rcases hst with h | h <;> simp [h]
        refine ⟨by rw [hrun]; decide, by rw [hrun]; decide, c, hcn, rfl, fun _ => hrun⟩
      · push_neg at hst
        have hkeep : (coerceNewStatus c).status = c.status := by
          unfold coerceNewStatus
          simp [hst.1, hst.2]
        refine ⟨by rw [hkeep]; exact hst.1, by rw [hkeep]; exact hst.2,
          c, hcn, rfl, fun h => absurd h (by simp [hst.1, hst.2])⟩

/-- C5 (divergence witness): when the persisted ledger file exists but is
zero-byte or unparsable and overwrite is off, `load_conversion_table` prints
a "generating new" message but the regeneration block sits in the `else`
branch of the existence test, so control falls off the end of the function
and `None` is returned instead of a regenerated table; the caller
(`update_conversion_table`) then fails unpacking the result. -/
theorem c5_load_corrupt_returns_nothing :
    loadConversionTable zeroByteEnv fsEmpty "2025-01-02T00:00:00" true
        = LoadResult.noneReturned ∧
    loadConversionTable corruptEnv fsEmpty "2025-01-02T00:00:00" true
        = LoadResult.noneReturned :=
  ⟨rfl, rfl⟩

/-- C8 (divergence witness): the executor's success path changes a row's
status from `run` to `processed` without appending a `status_history`
entry — the direct `df.at[i,'status'] = 'processed'` assignment in
`bidsify` bypasses `_update_status_with_history`, so a status change
happens while the history stays empty. -/
theorem c8_executor_changes_status_without_history :
    (executorMarkProcessed sampleRow "2025-01-02T00:00:00").status = "processed" ∧
    sampleRow.status = "run" ∧
    (executorMarkProcessed sampleRow "2025-01-02T00:00:00").status_history = [] ∧
    (executorMarkError sampleRow).status = "error" ∧
    (executorMarkError sampleRow).status_history = [] :=
  ⟨rfl, rfl, rfl, rfl, rfl⟩

/-- C9: parsing `"NatMEG_001_Phalanges_tsss_mc_meg.fif"` yields participant
`"001"`, task `"Phalanges"`, processing `["tsss", "mc"]`, datatypes
`["meg"]` and empty split `""`. -/
theorem c9_parse_phalanges_example :
    extract_info_from_filename "NatMEG_001_Phalanges_tsss_mc_meg.fif" =
      some { filename := "NatMEG_001_Phalanges_tsss_mc_meg.fif"
             participant := "001"
             task := "Phalanges"
             split := ""
             processing := ["tsss", "mc"]
             description := ""
             datatypes := ["meg"]
             suffix := "meg"
             extension := ".fif" } := by
  decide

/-- C6 (amended): a scanned candidate's initial status is `run` exactly when
the resolved task is in the configured allow-list, is an OPM
system-exception pattern name, or is the literal task `Noise`; every other
task — the canonical noise variants `NoiseBefore`/`NoiseAfter` included —
receives `check`. -/
theorem c6_initial_status_amended (configTasks : List String)
    (pathRaw ts : String) (fs : FSModel) (j : Job) (changed : Bool) (r : Row)
    (h : candidateRow pathRaw (configTasks ++ OPM_EXEPCIONS_PATTERNS) fs ts j changed
        = some r) :
    (r.status = "run" ∨ r.status = "check") ∧
    (r.status = "run" ↔
      (r.task ∈ configTasks ∨ r.task ∈ OPM_EXEPCIONS_PATTERNS ∨ r.task = "Noise")) := by
  unfold candidateRow at h
  cases hres : j.resolved with
  | none => rw [hres] at h; exact absurd h (by simp)
  | some res =>
    rw [hres] at h
    dsimp only [] at h
    by_cases hs : res.split ≠ ""
    · rw [if_pos hs] at h; exact absurd h (by simp)
    · rw [if_neg hs] at h
      have hr := Option.some.inj h
      subst hr
      by_cases hc :
          ((configTasks ++ OPM_EXEPCIONS_PATTERNS ++ ["Noise"]).contains res.task) = true
      · have hmem : res.task ∈ configTasks ∨ res.task ∈ OPM_EXEPCIONS_PATTERNS
            ∨ res.task = "Noise" := by
          simpa [List.mem_append] using List.mem_of_elem_eq_true hc
        simp [hc, hmem]
      · have hmem : ¬(res.task ∈ configTasks ∨ res.task ∈ OPM_EXEPCIONS_PATTERNS
            ∨ res.task = "Noise") := by
          intro hm
          apply hc
          apply List.elem_eq_true_of_mem
          simpa [List.mem_append] using hm
        simp [hc, hmem]

/-- C6 (counterexample): the parser canonicalizes
`"NatMEG_001_empty_room_before_raw.fif"` to the recognized noise task
`NoiseBefore`, yet the scanner assigns that candidate status `check` (not
`run`) when the task is outside the configured allow-list, because the
source tests `task not in tasks + ['Noise']` by literal string equality and
`"NoiseBefore" ≠ "Noise"`. -/
theorem c6_counterexample_noise_task_checked :
    (extract_info_from_filename "NatMEG_001_empty_room_before_raw.fif").map
        InfoDict.task = some "NoiseBefore" ∧
    (candidateRow "/raw" ([] ++ OPM_EXEPCIONS_PATTERNS) fsEmpty "20250101"
        noiseJob false).map Row.status = some "check" := by
  exact ⟨by decide, rfl⟩

/-- Witness for the amended C6 theorem at the concrete noise candidate. -/
theorem c6_witness :
    (noiseCandidate.status = "run" ∨ noiseCandidate.status = "check") ∧
    (noiseCandidate.status = "run" ↔
      (noiseCandidate.task ∈ ([] : List String) ∨
        noiseCandidate.task ∈ OPM_EXEPCIONS_PATTERNS ∨
        noiseCandidate.task = "Noise")) :=
  c6_initial_status_amended [] "/raw" "20250101" fsEmpty noiseJob false
    noiseCandidate (by decide)

/-- C7 (divergence witness): a scanned file whose signature changed
(`changed = true`) and whose prior recorded ledger status is `processed`
(its key is in the `processed_files` set) yields a candidate with status
`check` when its task is outside the allow-list — not `run` as claimed.
The scanner's coercion `if changed and status == 'processed'` tests the
freshly computed status, which is only ever `run` or `check`, so it never
fires. -/
theorem c7_changed_processed_candidate_not_forced_run :
    processedKeys unknownExisting = [jobFull "/raw" unknownJob] ∧
    (processFileEntry "/raw" ([] ++ OPM_EXEPCIONS_PATTERNS) fsEmpty
        (processedKeys unknownExisting) "20250101" unknownJob true).map Row.status
      = some "check" := by
  exact ⟨rfl, rfl⟩

/-- C10: a raw file whose parsed metadata carries a non-empty split suffix
(`info_dict['split']` truthy, i.e. a `-N.fif` basename) produces no
candidate row at all; and every candidate row that is produced records in
its `split` column the number of extra split parts that
`get_split_file_parts` finds on disk (`len(splits) - 1`), or `None` when
the probe does not return a list. -/
theorem c10_split_parts_never_rows (pathRaw ts : String) (tasks : List String)
    (fs : FSModel) (processedFiles : List String) (j : Job) (res : Resolved)
    (changed : Bool) (hres : j.resolved = some res) :
    (res.split ≠ "" →
      processFileEntry pathRaw tasks fs processedFiles ts j changed = none) ∧
    (∀ r, candidateRow pathRaw tasks fs ts j changed = some r →
      r.split =
        (match get_split_file_parts fs.pathExists fs.splitFuel (jobFull pathRaw j) with
         | Sum.inr splits => some (toString (splits.length - 1))
         | Sum.inl _ => none)) := by
  constructor
  · intro hsplit
    unfold processFileEntry
    split
    · rfl
    · unfold candidateRow
      rw [hres]
      dsimp only []
      rw [if_pos hsplit]
  · intro r h
    unfold candidateRow at h
    rw [hres] at h
    dsimp only [] at h
    by_cases hs : res.split ≠ ""
    · rw [if_pos hs] at h; exact absurd h (by simp)
    · rw [if_neg hs] at h
      have hr := Option.some.inj h
      subst hr
      rfl

/-- Witness for C10: the `-1.fif` part yields no candidate, and the base
file's candidate records one extra split part on disk. -/
theorem c10_witness :
    processFileEntry "/raw" OPM_EXEPCIONS_PATTERNS splitFs [] "20250101"
        splitPartJob false = none ∧
    splitCandidate.split = some "1" := by
  constructor
  · exact (c10_split_parts_never_rows "/raw" "20250101" OPM_EXEPCIONS_PATTERNS
      splitFs [] splitPartJob splitPartRes false rfl).1 (by decide)
  · have h := (c10_split_parts_never_rows "/raw" "20250101" OPM_EXEPCIONS_PATTERNS
      splitFs [] splitJob splitRes false rfl).2 splitCandidate (by decide)
    rw [h]
    rfl

/-- Stripping preserves the row key. -/
theorem rowKey_stripRow (r : Row) : rowKey (stripRow r) = rowKey r := rfl

/-- Stripping preserves the sort key. -/
theorem sortKey_stripRow (r : Row) : sortKey (stripRow r) = sortKey r := rfl

/-- Stripping commutes with the merge-time status coercion. -/
theorem stripRow_coerceNewStatus (r : Row) :
    stripRow (coerceNewStatus r) = coerceNewStatus (stripRow r) := by
  have hs : (stripRow r).status = r.status := rfl
  unfold coerceNewStatus
  rw [hs]
  split <;> rfl

/-- Status updates with different wall-clock times agree after stripping. -/
theorem stripRow_updateStatusWithHistory (r : Row) (s now now' : String) :
    stripRow (updateStatusWithHistory r s now)
      = stripRow (updateStatusWithHistory r s now') := by
  unfold updateStatusWithHistory
  split <;> simp [stripRow, stripHistEntry]

/-- Reconciling a row at different wall-clock times agrees after
stripping: `_refresh_processed_status` reads the clock only for history
timestamps. -/
theorem stripRow_refreshRow (fs : FSModel) (now now' : String) (r : Row) :
    stripRow (refreshRow fs now r) = stripRow (refreshRow fs now' r) := by
  unfold refreshRow
  split
  · exact stripRow_updateStatusWithHistory r "missing" now now'
  · split
    · rfl
    · split
      · exact stripRow_updateStatusWithHistory r "processed" now now'
      · split
        · exact stripRow_updateStatusWithHistory r "run" now now'
        · rfl

/-- Reconciling a table at different wall-clock times agrees after
stripping. -/
theorem stripTable_refreshTable (fs : FSModel) (now now' : String) (t : List Row) :
    (refreshTable fs now t).map stripRow = (refreshTable fs now' t).map stripRow := by
  unfold refreshTable
  induction t with
  | nil => rfl
  | cons a l ih =>
    simp only [List.map_cons, List.map_map] at *
    rw [stripRow_refreshRow fs now now' a, ih]

/-- The candidate built for a job does not depend on the scan timestamp or
on the `changed` flag, up to timestamp fields: the `changed`-guarded status
coercion in `process_file_entry` compares a freshly computed status (always
`run` or `check`) with `processed`, so it never fires. -/
theorem candidateRow_strip_congr (pathRaw : String) (tasks : List String)
    (fs : FSModel) (ts ts' : String) (j : Job) (ch ch' : Bool) :
    (candidateRow pathRaw tasks fs ts j ch).map stripRow
      = (candidateRow pathRaw tasks fs ts' j ch').map stripRow := by
  unfold candidateRow
  cases j.resolved with
  | none => rfl
  | some res =>
    dsimp only []
    by_cases hs : res.split ≠ ""
    · rw [if_pos hs, if_pos hs]
    · rw [if_neg hs, if_neg hs]
      by_cases hC : res.task ∉ tasks ∧ ¬res.task = "Noise"
      · simp [hC, stripRow]
      · simp [hC, stripRow]

/-- Every produced candidate's key is the scanned file's full path. -/
theorem candidateRow_key (pathRaw : String) (tasks : List String)
    (fs : FSModel) (ts : String) (j : Job) (ch : Bool) (r : Row)
    (h : candidateRow pathRaw tasks fs ts j ch = some r) :
    rowKey r = jobFull pathRaw j := by
  unfold candidateRow at h
  cases hres : j.resolved with
  | none => rw [hres] at h; exact absurd h (by simp)
  | some res =>
    rw [hres] at h
    dsimp only [] at h
    by_cases hs : res.split ≠ ""
    · rw [if_pos hs] at h; exact absurd h (by simp)
    · rw [if_neg hs] at h
      have hr := Option.some.inj h
      subst hr
      rfl

/-- Tables equal after stripping have equal key columns. -/
theorem mapRowKey_strip_congr :
    ∀ {t t' : List Row}, t.map stripRow = t'.map stripRow →
      t.map rowKey = t'.map rowKey
  | [], [], _ => rfl
  | [], _ :: _, h => by simp at h
  | _ :: _, [], h => by simp at h
  | a :: t, a' :: t', h => by
    simp only [List.map_cons, List.cons.injEq] at h ⊢
    refine ⟨?_, mapRowKey_strip_congr h.2⟩
    have hk := congrArg rowKey h.1
    rwa [rowKey_stripRow, rowKey_stripRow] at hk

/-- Tables equal after stripping have the same processed/skip key set. -/
theorem processedKeys_strip_congr :
    ∀ {t t' : List Row}, t.map stripRow = t'.map stripRow →
      processedKeys t = processedKeys t'
  | [], [], _ => rfl
  | [], _ :: _, h => by simp at h
  | _ :: _, [], h => by simp at h
  | a :: t, a' :: t', h => by
    simp only [List.map_cons, List.cons.injEq] at h
    have hs : a.status = a'.status := by
      have h2 := congrArg Row.status h.1
      exact h2
    have hk : rowKey a = rowKey a' := by
      have := congrArg rowKey h.1
      rwa [rowKey_stripRow, rowKey_stripRow] at this
    have ih := processedKeys_strip_congr h.2
    unfold processedKeys at *
    simp only [List.filter_cons, hs]
    split
    · simp only [List.map_cons, hk, ih]
    · exact ih

/-- Tables equal after stripping are empty together. -/
theorem isEmpty_strip_congr {t t' : List Row}
    (h : t.map stripRow = t'.map stripRow) : t.isEmpty = t'.isEmpty := by
  cases t <;> cases t' <;> simp_all

/-- Stability of the merge diff under rescanning: two scans of the same
filesystem snapshot that differ only in wall-clock timestamps and in the
per-file `changed` flags produce, after discarding candidates whose key is
already in the ledger, the same rows up to timestamp fields.  `P` is the
processed/skip key set and `K` the full ledger key set; the hypothesis
`P ⊆ K` holds by construction.  The `changed` flag only gates the
short-circuit that drops files already recorded in `P`, and those
candidates are discarded by the `K` filter anyway. -/
theorem filtered_candidates_strip_congr (pathRaw : String) (tasks : List String)
    (fs : FSModel) (P K : List String) (ts ts' : String) (ch ch' : Job → Bool)
    (hPK : ∀ k, P.contains k = true → K.contains k = true) :
    ∀ jobs : List Job,
      ((jobs.filterMap (fun j => processFileEntry pathRaw tasks fs P ts j (ch j))).filter
          (fun r => !K.contains (rowKey r))).map stripRow
        = ((jobs.filterMap (fun j => processFileEntry pathRaw tasks fs P ts' j (ch' j))).filter
          (fun r => !K.contains (rowKey r))).map stripRow := by
  intro jobs
  induction jobs with
  | nil => rfl
  | cons j js ih =>
    have hcand := candidateRow_strip_congr pathRaw tasks fs ts ts' j (ch j) (ch' j)
    rw [List.filterMap_cons, List.filterMap_cons]
    cases hA : candidateRow pathRaw tasks fs ts j (ch j) with
    | none =>
      have hB : candidateRow pathRaw tasks fs ts' j (ch' j) = none := by
        rw [hA] at hcand
        cases hBv : candidateRow pathRaw tasks fs ts' j (ch' j) with
        | none => rfl
        | some b => rw [hBv] at hcand; exact absurd hcand (by simp)
      have e1 : processFileEntry pathRaw tasks fs P ts j (ch j) = none := by
        unfold processFileEntry
        split
        · rfl
        · exact hA
      have e2 : processFileEntry pathRaw tasks fs P ts' j (ch' j) = none := by
        unfold processFileEntry
        split
        · rfl
        · exact hB
      rw [e1, e2]
      exact ih
    | some a =>
      have hB : ∃ b, candidateRow pathRaw tasks fs ts' j (ch' j) = some b
          ∧ stripRow a = stripRow b := by
        rw [hA] at hcand
        cases hBv : candidateRow pathRaw tasks fs ts' j (ch' j) with
        | none => rw [hBv] at hcand; exact absurd hcand (by simp)
        | some b =>
          rw [hBv] at hcand
          exact ⟨b, rfl, by simpa using hcand⟩
      obtain ⟨b, hBeq, hab⟩ := hB
      have hka : rowKey a = jobFull pathRaw j :=
        candidateRow_key pathRaw tasks fs ts j (ch j) a hA
      have hkb : rowKey b = jobFull pathRaw j :=
        candidateRow_key pathRaw tasks fs ts' j (ch' j) b hBeq
      by_cases hk : K.contains (jobFull pathRaw j) = true
      · have hqa : (!K.contains (rowKey a)) = false := by rw [hka, hk]; rfl
        have hqb : (!K.contains (rowKey b)) = false := by rw [hkb, hk]; rfl
        have e1 : processFileEntry pathRaw tasks fs P ts j (ch j) = none
            ∨ processFileEntry pathRaw tasks fs P ts j (ch j) = some a := by
          unfold processFileEntry
          split
          · exact Or.inl rfl
          · exact Or.inr hA
        have e2 : processFileEntry pathRaw tasks fs P ts' j (ch' j) = none
            ∨ processFileEntry pathRaw tasks fs P ts' j (ch' j) = some b := by
          unfold processFileEntry
          split
          · exact Or.inl rfl
          · exact Or.inr hBeq
        rcases e1 with e1 | e1 <;> rcases e2 with e2 | e2 <;>
          rw [e1, e2] <;> simp only [List.filter_cons, hqa, hqb] <;> exact ih
      · have hp : P.contains (jobFull pathRaw j) = false := by
          cases hpc : P.contains (jobFull pathRaw j) with
          | false => rfl
          | true => exact absurd (hPK _ hpc) hk
        have e1 : processFileEntry pathRaw tasks fs P ts j (ch j) = some a := by
          unfold processFileEntry
          rw [hp]
          simpa using hA
        have e2 : processFileEntry pathRaw tasks fs P ts' j (ch' j) = some b := by
          unfold processFileEntry
          rw [hp]
          simpa using hBeq
        have hkf : K.contains (jobFull pathRaw j) = false := by
          cases hx : K.contains (jobFull pathRaw j) with
          | false => rfl
          | true => exact absurd hx hk
        have hqa : (!K.contains (rowKey a)) = true := by rw [hka, hkf]; rfl
        have hqb : (!K.contains (rowKey b)) = true := by rw [hkb, hkf]; rfl
        rw [e1, e2]
        simp only [List.filter_cons, hqa, hqb, if_pos]
        rw [List.map_cons, List.map_cons, hab, ih]

/-- Inserting below every element of a list prepends. -/
theorem orderedInsert_of_forall_rel {α : Type _} {r : α → α → Prop}
    [DecidableRel r] {x : α} :
    ∀ {m : List α}, (∀ b ∈ m, r x b) → List.orderedInsert r x m = x :: m
  | [], _ => rfl
  | b :: m, h => by
    unfold List.orderedInsert
    rw [if_pos (h b (List.mem_cons_self b m))]

/-- Stepping an ordered insertion past a smaller head. -/
theorem orderedInsert_cons_of_not_rel {α : Type _} {r : α → α → Prop}
    [DecidableRel r] {x a : α} (h : ¬r x a) (s : List α) :
    List.orderedInsert r x (a :: s) = a :: List.orderedInsert r x s := by
  unfold List.orderedInsert
  rw [if_neg h]
  cases s <;> rfl

/-- Filtering commutes with ordered insertion into a sorted list. -/
theorem filter_orderedInsert {α : Type _} {r : α → α → Prop} [DecidableRel r]
    [IsTrans α r] (q : α → Bool) (x : α) :
    ∀ {s : List α}, s.Sorted r →
      (List.orderedInsert r x s).filter q
        = if q x then List.orderedInsert r x (s.filter q) else s.filter q
  | [], _ => by
    by_cases hqx : q x = true <;>
      simp [List.orderedInsert, List.filter_cons, hqx]
  | a :: s, hs => by
    have hs' : s.Sorted r := hs.of_cons
    by_cases hra : r x a
    · rw [List.orderedInsert_of_le r s hra]
      by_cases hqx : q x = true
      · rw [if_pos hqx]
        have hall : ∀ b ∈ (a :: s).filter q, r x b := by
          intro b hb
          have hb' := List.mem_of_mem_filter hb
          rcases List.mem_cons.mp hb' with h | h
          · rw [h]; exact hra
          · exact IsTrans.trans x a b hra (List.rel_of_sorted_cons hs b h)
        rw [orderedInsert_of_forall_rel hall]
        simp [List.filter_cons, hqx]
      · rw [if_neg hqx]
        simp [List.filter_cons, hqx]
    · rw [orderedInsert_cons_of_not_rel hra s, List.filter_cons]
      have ihs := filter_orderedInsert q x hs'
      by_cases hqa : q a = true
      · rw [if_pos hqa, ihs]
        by_cases hqx : q x = true
        · rw [if_pos hqx, if_pos hqx, List.filter_cons, if_pos hqa,
            orderedInsert_cons_of_not_rel hra]
        · rw [if_neg hqx, if_neg hqx, List.filter_cons, if_pos hqa]
      · rw [if_neg hqa, ihs]
        by_cases hqx : q x = true
        · rw [if_pos hqx, if_pos hqx, List.filter_cons, if_neg hqa]
        · rw [if_neg hqx, if_neg hqx, List.filter_cons, if_neg hqa]

/-- Stability of insertion sort: filtering after sorting equals sorting the
filtered list (the `results.sort` of the scanner followed by the key diff of
the merge step can be reordered). -/
theorem filter_insertionSort {α : Type _} {r : α → α → Prop} [DecidableRel r]
    [IsTotal α r] [IsTrans α r] (q : α → Bool) :
    ∀ l : List α,
      (List.insertionSort r l).filter q = List.insertionSort r (l.filter q)
  | [] => rfl
  | x :: l => by
    rw [List.insertionSort,
      filter_orderedInsert q x (List.sorted_insertionSort r l),
      filter_insertionSort q l, List.filter_cons]
    by_cases hqx : q x = true
    · rw [if_pos hqx, if_pos hqx, List.insertionSort]
    · rw [if_neg hqx, if_neg hqx]

/-- Stripping timestamps commutes with ordered insertion: the sort key never
reads a timestamp field. -/
theorem map_stripRow_orderedInsert (x : Row) :
    ∀ s : List Row, (List.orderedInsert rowLe x s).map stripRow
      = List.orderedInsert rowLe (stripRow x) (s.map stripRow)
  | [] => rfl
  | a :: s => by
    have hiff : rowLe x a ↔ rowLe (stripRow x) (stripRow a) := by
      unfold rowLe
      rw [sortKey_stripRow, sortKey_stripRow]
    by_cases hr : rowLe x a
    · rw [List.orderedInsert_of_le rowLe s hr, List.map_cons, List.map_cons,
        List.orderedInsert_of_le rowLe (s.map stripRow) (hiff.mp hr)]
    · rw [orderedInsert_cons_of_not_rel hr s, List.map_cons, List.map_cons,
        orderedInsert_cons_of_not_rel (fun hc => hr (hiff.mpr hc)) (s.map stripRow),
        map_stripRow_orderedInsert x s]

/-- Stripping timestamps commutes with the deterministic result sort. -/
theorem map_stripRow_insertionSort :
    ∀ l : List Row, (List.insertionSort rowLe l).map stripRow
      = List.insertionSort rowLe (l.map stripRow)
  | [] => rfl
  | x :: l => by
    rw [List.insertionSort, map_stripRow_orderedInsert,
      map_stripRow_insertionSort l, List.map_cons, List.insertionSort]

/-- The merged table is determined, up to timestamp fields, by the existing
table and the key-filtered candidates, both up to timestamp fields. -/
theorem mergeStep_strip_congr {e2 e1 n2 n1 : List Row}
    (hE : e2.map stripRow = e1.map stripRow)
    (hD : (n2.filter (fun r => !(e2.map rowKey).contains (rowKey r))).map stripRow
        = (n1.filter (fun r => !(e1.map rowKey).contains (rowKey r))).map stripRow) :
    (mergeStep e2 n2).1.map stripRow = (mergeStep e1 n1).1.map stripRow := by
  have hDnil : n2.filter (fun r => !(e2.map rowKey).contains (rowKey r)) = []
      ↔ n1.filter (fun r => !(e1.map rowKey).contains (rowKey r)) = [] := by
    constructor
    · intro h
      rw [h] at hD
      exact List.map_eq_nil_iff.mp hD.symm
    · intro h
      rw [h] at hD
      exact List.map_eq_nil_iff.mp hD
  show (if n2.isEmpty = true then (e2, false)
      else if (n2.filter (fun r => !(e2.map rowKey).contains (rowKey r))).isEmpty = true
        then (e2, false)
      else (e2 ++ (n2.filter (fun r => !(e2.map rowKey).contains (rowKey r))).map
          coerceNewStatus, true)).1.map stripRow
    = (if n1.isEmpty = true then (e1, false)
      else if (n1.filter (fun r => !(e1.map rowKey).contains (rowKey r))).isEmpty = true
        then (e1, false)
      else (e1 ++ (n1.filter (fun r => !(e1.map rowKey).contains (rowKey r))).map
          coerceNewStatus, true)).1.map stripRow
  by_cases h2 : n2.isEmpty = true
  · rw [if_pos h2]
    have hn2 : n2 = [] := List.isEmpty_iff.mp h2
    have hf1 : n1.filter (fun r => !(e1.map rowKey).contains (rowKey r)) = [] := by
      apply hDnil.mp
      rw [hn2]
      rfl
    by_cases h1 : n1.isEmpty = true
    · rw [if_pos h1]
      exact hE
    · rw [if_neg h1]
      rw [hf1]
      simp only [List.isEmpty_nil, if_pos]
      exact hE
  · rw [if_neg h2]
    by_cases h1 : n1.isEmpty = true
    · rw [if_pos h1]
      have hn1 : n1 = [] := List.isEmpty_iff.mp h1
      have hf2 : n2.filter (fun r => !(e2.map rowKey).contains (rowKey r)) = [] := by
        apply hDnil.mpr
        rw [hn1]
        rfl
      rw [hf2]
      simp only [List.isEmpty_nil, if_pos]
      exact hE
    · rw [if_neg h1]
      by_cases hd1 :
          (n1.filter (fun r => !(e1.map rowKey).contains (rowKey r))).isEmpty = true
      · have hf1 := List.isEmpty_iff.mp hd1
        have hf2 := hDnil.mpr hf1
        rw [hf1, hf2]
        simp only [List.isEmpty_nil, if_pos]
        exact hE
      · have hd2 :
            (n2.filter (fun r => !(e2.map rowKey).contains (rowKey r))).isEmpty ≠ true := by
          intro hx
          have hf1 := hDnil.mp (List.isEmpty_iff.mp hx)
          rw [hf1] at hd1
          exact hd1 rfl
        rw [if_neg hd2, if_neg hd1]
        simp only [List.map_append]
        rw [hE]
        have hcomm : ∀ m : List Row,
            (m.map coerceNewStatus).map stripRow
              = (m.map stripRow).map coerceNewStatus := by
          intro m
          rw [List.map_map, List.map_map]
          apply List.map_congr_left
          intro a _
          exact stripRow_coerceNewStatus a
        rw [hcomm, hcomm, hD]

/-- Generalized determinism of the scan-and-merge operation: two runs of
`update_conversion_table` against the same filesystem snapshot and the same
on-disk ledger produce the same table up to timestamp fields, whatever the
signature index, the force flag and the wall clock say on each run.  (The
signature index and force flag only influence the `changed` flags, which
only gate the short-circuit for already-recorded files — files whose
candidates the merge diff discards anyway.) -/
theorem updateConversionTable_strip_congr (pathRaw : String) (fs : FSModel)
    (ledgerOnDisk : List Row) (configTaskList : List String)
    (idxA idxB : String → Option (String × String)) (fA fB : Bool)
    (tsA tsB nowA nowB : String) :
    (updateConversionTable pathRaw fs ledgerOnDisk configTaskList idxB fB tsB nowB).1.map
        stripRow
      = (updateConversionTable pathRaw fs ledgerOnDisk configTaskList idxA fA tsA
          nowA).1.map stripRow := by
  have hE := stripTable_refreshTable fs nowB nowA ledgerOnDisk
  have hK := mapRowKey_strip_congr hE
  have hPk := processedKeys_strip_congr hE
  have hEmp := isEmpty_strip_congr hE
  show (mergeStep (refreshTable fs nowB ledgerOnDisk)
      (List.insertionSort rowLe
        (fs.jobs.filterMap (fun j =>
          processFileEntry pathRaw (configTaskList ++ OPM_EXEPCIONS_PATTERNS) fs
            (if (refreshTable fs nowB ledgerOnDisk).isEmpty then []
              else processedKeys (refreshTable fs nowB ledgerOnDisk)) tsB j
            (if fB then true
              else decide (idxB (jobFull pathRaw j)
                ≠ some (fs.sig (jobFull pathRaw j)))))))).1.map stripRow
    = (mergeStep (refreshTable fs nowA ledgerOnDisk)
      (List.insertionSort rowLe
        (fs.jobs.filterMap (fun j =>
          processFileEntry pathRaw (configTaskList ++ OPM_EXEPCIONS_PATTERNS) fs
            (if (refreshTable fs nowA ledgerOnDisk).isEmpty then []
              else processedKeys (refreshTable fs nowA ledgerOnDisk)) tsA j
            (if fA then true
              else decide (idxA (jobFull pathRaw j)
                ≠ some (fs.sig (jobFull pathRaw j)))))))).1.map stripRow
  apply mergeStep_strip_congr hE
  rw [filter_insertionSort, filter_insertionSort,
    map_stripRow_insertionSort, map_stripRow_insertionSort]
  simp only [hK, hEmp, hPk]
  congr 1
  have hPK : ∀ k,
      (if (refreshTable fs nowA ledgerOnDisk).isEmpty then []
        else processedKeys (refreshTable fs nowA ledgerOnDisk)).contains k = true →
      ((refreshTable fs nowA ledgerOnDisk).map rowKey).contains k = true := by
    intro k hk
    by_cases he : (refreshTable fs nowA ledgerOnDisk).isEmpty = true
    · rw [if_pos he] at hk
      simp at hk
    · rw [if_neg he] at hk
      have hmem := List.mem_of_elem_eq_true hk
      unfold processedKeys at hmem
      obtain ⟨r, hr, hrk⟩ := List.mem_map.mp hmem
      exact List.elem_eq_true_of_mem
        (List.mem_map.mpr ⟨r, List.mem_of_mem_filter hr, hrk⟩)
  exact filtered_candidates_strip_congr pathRaw
    (configTaskList ++ OPM_EXEPCIONS_PATTERNS) fs
    (if (refreshTable fs nowA ledgerOnDisk).isEmpty then []
      else processedKeys (refreshTable fs nowA ledgerOnDisk))
    ((refreshTable fs nowA ledgerOnDisk).map rowKey) tsB tsA
    (fun j => if fB then true
      else decide (idxB (jobFull pathRaw j) ≠ some (fs.sig (jobFull pathRaw j))))
    (fun j => if fA then true
      else decide (idxA (jobFull pathRaw j) ≠ some (fs.sig (jobFull pathRaw j))))
    hPK fs.jobs

/-- C1: running the scan-and-merge operation (`update_conversion_table`) a
second time with no filesystem change between the two runs — the second run
reads the same on-disk ledger and the signature index left behind by the
first run — yields a ledger identical to the first run's result in every
field except timestamp fields: same rows in the same order (so no row is
duplicated), same statuses, same history transitions. -/
theorem c1_update_conversion_table_idempotent (pathRaw : String) (fs : FSModel)
    (ledgerOnDisk : List Row) (configTaskList : List String)
    (previousIndex : String → Option (String × String)) (force1 force2 : Bool)
    (ts1 ts2 now1 now2 : String) :
    (updateConversionTable pathRaw fs ledgerOnDisk configTaskList
        (updateConversionTable pathRaw fs ledgerOnDisk configTaskList
          previousIndex force1 ts1 now1).2.1 force2 ts2 now2).1.map stripRow
      = (updateConversionTable pathRaw fs ledgerOnDisk configTaskList
          previousIndex force1 ts1 now1).1.map stripRow :=
  updateConversionTable_strip_congr pathRaw fs ledgerOnDisk configTaskList
    previousIndex
    (updateConversionTable pathRaw fs ledgerOnDisk configTaskList previousIndex
      force1 ts1 now1).2.1
    force1 force2 ts1 ts2 now1 now2

/-- Witness for C3 at a concrete merge: the duplicate-key candidate is
dropped, the existing row survives unchanged, and the appended row's key is
new. -/
theorem c3_witness :
    (mergeStep [sampleRow] [dupRow, newRow]).1
        = [sampleRow, coerceNewStatus newRow] ∧
    (mergeStep [sampleRow] [dupRow, newRow]).1.take [sampleRow].length
        = [sampleRow] ∧
    ∀ r ∈ (mergeStep [sampleRow] [dupRow, newRow]).1.drop [sampleRow].length,
      rowKey r ∉ [sampleRow].map rowKey :=
  ⟨by decide, (c3_merge_preserves_existing_and_keys [sampleRow] [dupRow, newRow]).1,
    (c3_merge_preserves_existing_and_keys [sampleRow] [dupRow, newRow]).2⟩

/-- Witness for C4 at a concrete merge: the appended candidate, scanned with
a stale `processed` status, is inserted with status `run`. -/
theorem c4_witness :
    ((mergeStep [sampleRow] [dupRow, newRow]).1.drop [sampleRow].length).map
        Row.status = ["run"] ∧
    ∀ r ∈ (mergeStep [sampleRow] [dupRow, newRow]).1.drop [sampleRow].length,
      r.status ≠ "processed" ∧ r.status ≠ "skip" ∧
      ∃ c ∈ [dupRow, newRow], r = coerceNewStatus c ∧
        ((c.status = "processed" ∨ c.status = "skip") → r.status = "run") :=
  ⟨by decide, c4_merge_coerces_appended_statuses [sampleRow] [dupRow, newRow]⟩
